import Mathlib

/-!
Verification of the ritmex-bot trading engine against its design
specification.  The TypeScript sources are shallowly embedded: JavaScript
numbers are modelled as rationals (`ℚ`), values whose `Number(...)` parse can
fail (`NaN`) as `Option ℚ`, and the engine's per-tick decision logic as pure
functions on explicit state.  Definitions are translated from the repository
sources (`src/utils/strategy.ts`, `src/state/trade-log.ts`,
`src/core/trend-engine.ts`, `src/core/maker-engine.ts`); the few pieces of
code the repository imports but does not ship (the order coordinator's
`unlockOperating`, `src/utils/errors.ts`) are modelled from the
specification and marked as such.
-/

namespace Ritmex

/-- Order side, `"BUY" | "SELL"` in `src/exchanges/types.ts`. -/
inductive Side where
  | buy
  | sell
deriving DecidableEq, Repr

/-- Position side, `"BOTH" | "LONG" | "SHORT"` in `src/exchanges/types.ts`. -/
inductive PositionSide where
  | both
  | long
  | short
deriving DecidableEq, Repr

/-- Direction argument of the price helpers, `"long" | "short"` in
`src/utils/strategy.ts`. -/
inductive TradeSide where
  | long
  | short
deriving DecidableEq, Repr

/-- One record of `AsterAccountSnapshot.positions`
(`src/exchanges/types.ts`).  The numeric fields are strings in the transport
type and the engine reads them through `Number(...)`; a field holds `none`
when that parse yields `NaN` (a non-numeric string), `some q` when it yields
the rational `q`. -/
structure AccountPosition where
  symbol : String
  positionAmt : Option ℚ
  entryPrice : Option ℚ
  unrealizedProfit : Option ℚ
  positionSide : PositionSide
deriving DecidableEq, Repr

/-- The slice of `AsterAccountSnapshot` the engines read
(`src/exchanges/types.ts`).  `positions` is `Option` because
`getPosition` defensively reads it as `snapshot.positions?.filter(...)`. -/
structure AccountSnapshot where
  totalUnrealizedProfit : Option ℚ
  positions : Option (List AccountPosition)
deriving DecidableEq, Repr

/-- The slice of the exchange-reported `AsterOrder` the engines read
(`src/exchanges/types.ts`).  `price` and `stopPrice` are transported as
strings and read through `Number(...)`: `none` models a non-finite parse. -/
structure AsterOrder where
  orderId : ℕ
  symbol : String
  side : Side
  otype : String
  status : String
  price : Option ℚ
  stopPrice : Option ℚ
  reduceOnly : Bool
deriving DecidableEq, Repr

/-- The slice of `AsterKline` used by the strategy utilities: the close
price, already parsed (`Number(k.close)` in `getSMA`). -/
structure AsterKline where
  openTime : ℕ
  close : ℚ
deriving DecidableEq, Repr

/-- The slice of `AsterTicker` the engines read. -/
structure Ticker where
  lastPrice : ℚ
deriving DecidableEq, Repr

/-- The slice of `AsterDepth` the engines read: parsed top-of-book levels. -/
structure Depth where
  bids : List (ℚ × ℚ)
  asks : List (ℚ × ℚ)
deriving DecidableEq, Repr

/-- Result type of `getPosition` (`src/utils/strategy.ts`). -/
structure PositionSnapshot where
  positionAmt : ℚ
  entryPrice : ℚ
  unrealizedProfit : ℚ
deriving DecidableEq, Repr

/-- `NON_ZERO_EPS = 1e-8` in `getPosition` (`src/utils/strategy.ts`). -/
def nonZeroEps : ℚ := 1 / 100000000

/-- `EPS = 1e-5`, the flatness epsilon of both engines. -/
def EPS : ℚ := 1 / 100000

/-- `Number(p.positionAmt) || 0`: a `NaN` parse (and `0` itself) collapses
to `0`. -/
def numOr0 (x : Option ℚ) : ℚ := x.getD 0

/-- Head of `withExposure.sort((a, b) => |amt b| - |amt a|)`: JavaScript's
sort is stable, so the head of the descending sort is the first record
attaining the maximal `|positionAmt|`.  Folding left and replacing the
candidate only on a strict increase computes exactly that record. -/
def firstMaxExposure (l : List AccountPosition) : Option AccountPosition :=
  l.foldl
    (fun acc p =>
      match acc with
      | none => some p
      | some q => if |numOr0 q.positionAmt| < |numOr0 p.positionAmt| then some p else acc)
    none

/-- `getPosition` from `src/utils/strategy.ts`: select the position record
for `symbol` (exposure-filtered `BOTH` first, then largest exposure, then
the first record) and coerce its numeric fields with `Number(...) || 0`. -/
def getPosition (snapshot : Option AccountSnapshot) (symbol : String) : PositionSnapshot :=
  match snapshot with
  | none => ⟨0, 0, 0⟩
  | some s =>
    let positions := (s.positions.getD []).filter (fun p => p.symbol == symbol)
    match positions with
    | [] => ⟨0, 0, 0⟩
    | p0 :: _ =>
      let withExposure := positions.filter (fun p => nonZeroEps < |numOr0 p.positionAmt|)
      let selected :=
        ((withExposure.find? (fun p => p.positionSide == PositionSide.both)).orElse
          (fun _ => firstMaxExposure withExposure)).getD p0
      ⟨numOr0 selected.positionAmt, numOr0 selected.entryPrice,
        numOr0 selected.unrealizedProfit⟩

/-- `getSMA` from `src/utils/strategy.ts`.  `values.slice(-length)` keeps
the last `length` elements, i.e. drops `values.length - length`; the engine
only ever calls this with `length = 30`. -/
def getSMA (values : List AsterKline) (length : ℕ) : Option ℚ :=
  if values.length < length then none
  else
    let closes := (values.drop (values.length - length)).map (fun k => k.close)
    some ((closes.foldl (fun acc c => acc + c) 0) / (closes.length : ℚ))

/-- `calcStopLossPrice` from `src/utils/strategy.ts`. -/
def calcStopLossPrice (entryPrice qty : ℚ) (side : TradeSide) (loss : ℚ) : ℚ :=
  match side with
  | .long => entryPrice - loss / qty
  | .short => entryPrice + loss / |qty|

/-- `calcTrailingActivationPrice` from `src/utils/strategy.ts`. -/
def calcTrailingActivationPrice (entryPrice qty : ℚ) (side : TradeSide) (profit : ℚ) : ℚ :=
  match side with
  | .long => entryPrice + profit / qty
  | .short => entryPrice - profit / |qty|

/-- An entry of the bounded trade log (`src/state/trade-log.ts`).  The
source stamps `time` with the wall clock at push time; here the stamp is
part of the pushed value. -/
structure TradeLogEntry where
  time : String
  etype : String
  detail : String
deriving DecidableEq, Repr

/-- One `push` of `createTradeLog(maxEntries)` (`src/state/trade-log.ts`):
append the entry, then `shift()` the oldest entry away if the bound is
exceeded. -/
def tradeLogPush (maxEntries : ℕ) (entries : List TradeLogEntry)
    (e : TradeLogEntry) : List TradeLogEntry :=
  let next := entries ++ [e]
  if maxEntries < next.length then next.tail else next

/-- The trade-log contents after a sequence of pushes into a fresh log of
capacity `maxEntries`. -/
def tradeLogRun (maxEntries : ℕ) (pushes : List TradeLogEntry) : List TradeLogEntry :=
  pushes.foldl (tradeLogPush maxEntries) []

/-- Modelled from the spec: `isUnknownOrderError` in `src/utils/errors.ts`
is imported by both engines but the file is not among the provided sources.
Per the spec, the transport distinguishes an "order/symbol not found"
condition on its errors; this is modelled as a Boolean flag carried by the
transport error value. -/
structure ExchangeError where
  unknownOrder : Bool
  message : String
deriving DecidableEq, Repr

/-- Modelled from the spec: classification of a transport error as the
benign "order/symbol not found" case. -/
def isUnknownOrderError (e : ExchangeError) : Bool := e.unknownOrder

/-- Lock state of one order-coordinator slot: the boolean lock, the pending
order identifier the engine is waiting on, and whether a guard timer is
armed (`OrderLockMap` / `OrderPendingMap` / `OrderTimerMap` entries for one
slot key). -/
structure SlotState where
  locked : Bool
  pendingId : Option ℕ
  timerSet : Bool
deriving DecidableEq, Repr

/-- Modelled from the spec: `unlockOperating` of
`src/core/order-coordinator.ts` (not among the provided sources) clears the
slot's lock, drops its pending order identifier, and disarms its timer. -/
def unlockOperating (_st : SlotState) : SlotState := ⟨false, none, false⟩

/-- Per-slot body of `TrendEngine.synchronizeLocks`
(`src/core/trend-engine.ts`): with a pending identifier recorded, unlock
when no pushed order carries that identifier, or when the matching order
has a truthy status different from `"NEW"`. -/
def trendSyncSlot (orders : List AsterOrder) (st : SlotState) : SlotState :=
  match st.pendingId with
  | none => st
  | some pendingId =>
    match orders.find? (fun o => o.orderId == pendingId) with
    | none => unlockOperating st
    | some o =>
      if o.status ≠ "" ∧ o.status ≠ "NEW" then unlockOperating st else st

/-- Per-slot body of `MakerEngine.syncLocksWithOrders`
(`src/core/maker-engine.ts`): like the trend engine's version, but a
matching order with status `"PARTIALLY_FILLED"` also keeps the lock. -/
def makerSyncSlot (orders : List AsterOrder) (st : SlotState) : SlotState :=
  match st.pendingId with
  | none => st
  | some pendingId =>
    match orders.find? (fun o => o.orderId == pendingId) with
    | none => unlockOperating st
    | some o =>
      if o.status ≠ "" ∧ o.status ≠ "NEW" ∧ o.status ≠ "PARTIALLY_FILLED" then
        unlockOperating st
      else st

/-- Derived PnL of `TrendEngine.handlePositionManagement`
(`src/core/trend-engine.ts`): measured against the last traded price, with
the direction taken from the sign of the position amount. -/
def trendPnl (position : PositionSnapshot) (price : ℚ) : ℚ :=
  (if 0 < position.positionAmt then price - position.entryPrice
   else position.entryPrice - price) * |position.positionAmt|

/-- Forced-liquidation trigger of `TrendEngine.handlePositionManagement`
(`src/core/trend-engine.ts`, line 302): close at market when either the
derived PnL or the exchange-reported unrealized PnL drops below
`-lossLimit`. -/
def trendShouldClose (lossLimit : ℚ) (position : PositionSnapshot) (price : ℚ) : Bool :=
  trendPnl position price < -lossLimit ∨ position.unrealizedProfit < -lossLimit

/-- Derived PnL of `MakerEngine.checkRisk` (`src/core/maker-engine.ts`):
longs are marked against the engine's bid quote price, shorts against its
ask quote price. -/
def makerPnl (position : PositionSnapshot) (bidPrice askPrice : ℚ) : ℚ :=
  if 0 < position.positionAmt then (bidPrice - position.entryPrice) * |position.positionAmt|
  else (position.entryPrice - askPrice) * |position.positionAmt|

/-- Trigger decision of `MakerEngine.checkRisk` (`src/core/maker-engine.ts`,
lines 318-345): skip flat positions and positions whose entry price has not
been populated; otherwise close when the derived PnL drops below
`-lossLimit`, or when the reported unrealized PnL drops below `-lossLimit`
while the derived PnL is non-positive.  In the rational model every number
is finite, so the `Number.isFinite` guards of the source are vacuous. -/
def makerShouldClose (lossLimit : ℚ) (position : PositionSnapshot)
    (bidPrice askPrice : ℚ) : Bool :=
  if |position.positionAmt| < EPS then false
  else if ¬ (nonZeroEps < |position.entryPrice|) then false
  else
    let pnl := makerPnl position bidPrice askPrice
    (pnl < -lossLimit) ∨ (position.unrealizedProfit < -lossLimit ∧ pnl ≤ 0)

/-- Catch handler of the stale-order sweep in
`TrendEngine.handleOpenPosition` (`src/core/trend-engine.ts`, lines
206-213): every `cancelAllOrders` failure, unknown-order responses
included, is pushed to the trade log at `"error"` severity. -/
def trendCancelAllCatchSeverity (_err : ExchangeError) : String := "error"

/-- Outcome of one cancellation attempt issued by the maker engine. -/
inductive CancelResult where
  | ok
  | err (e : ExchangeError)
deriving DecidableEq, Repr

/-- One iteration of the cancellation loop of `MakerEngine.syncOrders`
(`src/core/maker-engine.ts`, lines 278-292): the order id is recorded in
`pendingCancelOrders` before the transport call; on success an `"order"`
entry is logged; an unknown-order failure logs at `"order"` severity and
clears the marker; any other failure logs at `"error"` severity and clears
the marker.  Only the severities of the pushed log entries are tracked. -/
def makerCancelStep (pendingCancel : List ℕ) (logs : List String)
    (order : AsterOrder) (result : CancelResult) : List ℕ × List String :=
  let pendingMarked :=
    if order.orderId ∈ pendingCancel then pendingCancel
    else pendingCancel ++ [order.orderId]
  match result with
  | .ok => (pendingMarked, logs ++ ["order"])
  | .err e =>
    if isUnknownOrderError e then
      (pendingMarked.erase order.orderId, logs ++ ["order"])
    else
      (pendingMarked.erase order.orderId, logs ++ ["error"])

/-- A maker quote target (`DesiredOrder` in `src/core/maker-engine.ts`). -/
structure DesiredOrder where
  side : Side
  price : ℚ
  amount : ℚ
  reduceOnly : Bool
deriving DecidableEq, Repr

/-- Match predicate of `MakerEngine.syncOrders`: a desired order matches a
resident order exactly when side and reduce-only flag agree and the prices
differ by at most the chase tolerance. -/
def matchesTarget (tolerance : ℚ) (side : Side) (reduceOnly : Bool) (price : ℚ)
    (t : DesiredOrder) : Bool :=
  t.side == side && t.reduceOnly == reduceOnly && decide (|price - t.price| ≤ tolerance)

/-- Index of the first entry of a zipped target/availability list whose
flag is set and whose target satisfies the predicate (the `findIndex`
traversal of `MakerEngine.syncOrders`). -/
def findAvail (p : DesiredOrder → Bool) : List (DesiredOrder × Bool) → Option ℕ
  | [] => none
  | tu :: rest =>
    if tu.2 && p tu.1 then some 0
    else (findAvail p rest).map (fun i => i + 1)

/-- The `targets.findIndex(...)` call of `MakerEngine.syncOrders`: index of
the first still-unmatched desired order matching the resident order.  The
per-index availability flags are carried alongside the targets. -/
def findMatchIdx (tolerance : ℚ) (targets : List DesiredOrder) (unmatched : List Bool)
    (side : Side) (reduceOnly : Bool) (price : ℚ) : Option ℕ :=
  findAvail (matchesTarget tolerance side reduceOnly price) (targets.zip unmatched)

/-- Matching pass of `MakerEngine.syncOrders` (`src/core/maker-engine.ts`,
lines 250-276): walk the resident open orders in order; an order with an
unparseable price is marked for cancellation outright, an order already in
`pendingCancelOrders` is skipped, an order matching a still-unmatched
desired order consumes that desired order, and any other order is marked
for cancellation.  Returns the remaining availability flags and the
cancellation list in residence order. -/
def syncScan (tolerance : ℚ) (pendingCancel : List ℕ) (targets : List DesiredOrder) :
    List AsterOrder → List Bool → List Bool × List AsterOrder
  | [], unmatched => (unmatched, [])
  | order :: rest, unmatched =>
    match order.price with
    | none =>
      let step := syncScan tolerance pendingCancel targets rest unmatched
      (step.1, order :: step.2)
    | some price =>
      if order.orderId ∈ pendingCancel then
        syncScan tolerance pendingCancel targets rest unmatched
      else
        match findMatchIdx tolerance targets unmatched order.side order.reduceOnly price with
        | some i => syncScan tolerance pendingCancel targets rest (unmatched.set i false)
        | none =>
          let step := syncScan tolerance pendingCancel targets rest unmatched
          (step.1, order :: step.2)

/-- Placement pass of `MakerEngine.syncOrders` (lines 294-315): every
desired order left unmatched is placed, except those with amount below the
flatness epsilon.  Iteration of the `unmatched` index set follows insertion
order, i.e. ascending target index. -/
def syncPlacements (targets : List DesiredOrder) (unmatched : List Bool) : List DesiredOrder :=
  ((targets.zip unmatched).filter
    (fun tu => tu.2 && decide (EPS ≤ tu.1.amount))).map (fun tu => tu.1)

/-- The reconciliation decision of one `MakerEngine.syncOrders` run: which
resident orders are cancelled and which desired orders are placed. -/
def syncOrdersPlan (tolerance : ℚ) (pendingCancel : List ℕ) (targets : List DesiredOrder)
    (openOrders : List AsterOrder) : List AsterOrder × List DesiredOrder :=
  let scan := syncScan tolerance pendingCancel targets openOrders (targets.map (fun _ => true))
  (scan.2, syncPlacements targets scan.1)

/-- Cache state of `TrendEngine` read by `isReady`
(`src/core/trend-engine.ts`). -/
structure TrendEngineState where
  accountSnapshot : Option AccountSnapshot
  tickerSnapshot : Option Ticker
  depthSnapshot : Option Depth
  klineSnapshot : List AsterKline
deriving Repr

/-- `TrendEngine.isReady` (`src/core/trend-engine.ts`, lines 156-163): the
engine is ready once account, ticker and depth snapshots have arrived and
at least 30 klines are cached. -/
def trendIsReady (st : TrendEngineState) : Bool :=
  st.accountSnapshot.isSome && st.tickerSnapshot.isSome && st.depthSnapshot.isSome &&
    decide (30 ≤ st.klineSnapshot.length)

/-- A mutation of the handler registry performed by a handler during
emission: `on` adds a handler, `off` removes one.  Handlers are identified
by numeric handles. -/
inductive RegOp where
  | add (h : ℕ)
  | remove (h : ℕ)
deriving DecidableEq, Repr

/-- Effect of one registry mutation on the handler set, which is kept in
insertion order without duplicates (a JavaScript `Set`). -/
def applyRegOp (l : List ℕ) : RegOp → List ℕ
  | .add h => if h ∈ l then l else l ++ [h]
  | .remove h => l.erase h

/-- Effect of a handler's registry mutations, applied in program order. -/
def applyRegOps (l : List ℕ) (ops : List RegOp) : List ℕ :=
  ops.foldl applyRegOp l

/-- `emitUpdate` of both engines iterates the handler set itself:
`handlers.forEach((handler) => handler(snapshot))`
(`src/core/trend-engine.ts`, lines 392-397; `src/core/maker-engine.ts`,
lines 392-398).  JavaScript `Set.forEach` visits, at each step, the first
not-yet-visited element in insertion order of the current set, so elements
added during iteration are visited and elements removed before their visit
are skipped.  `env h` gives the registry mutations handler `h` performs
when invoked; the result is the list of invoked handlers.  The fuel bounds
the number of visits and is irrelevant whenever it exceeds that number. -/
def emitLive (env : ℕ → List RegOp) : ℕ → List ℕ → List ℕ → List ℕ
  | 0, _, _ => []
  | fuel + 1, visited, l =>
    match (l.filter (fun x => decide (x ∉ visited))).head? with
    | none => []
    | some x => x :: emitLive env fuel (visited ++ [x]) (applyRegOps l (env x))

/-- The invocations an emission would perform if it iterated a snapshot
copy of the handler set taken when the emission starts, as the spec
prescribes: exactly the registered handlers, in order, regardless of
mutations performed by the handlers themselves. -/
def emitSnapshotCopy (l : List ℕ) : List ℕ := l

/-- C7: for every entry price `E`, positive quantity `Q`, loss limit `L`
and trailing profit `P`, the derived stop-loss price is `E - L/Q` for a
long and `E + L/Q` for a short, and the trailing activation price is
`E + P/Q` for a long and `E - P/Q` for a short; for entry 100, quantity 2,
loss limit 10 the stop price is 95 for a long and 105 for a short. -/
theorem c7_stop_prices (E Q L P : ℚ) (hQ : 0 < Q) :
    calcStopLossPrice E Q TradeSide.long L = E - L / Q ∧
    calcStopLossPrice E Q TradeSide.short L = E + L / Q ∧
    calcTrailingActivationPrice E Q TradeSide.long P = E + P / Q ∧
    calcTrailingActivationPrice E Q TradeSide.short P = E - P / Q ∧
    calcStopLossPrice 100 2 TradeSide.long 10 = 95 ∧
    calcStopLossPrice 100 2 TradeSide.short 10 = 105 := by
  have habs : |Q| = Q := abs_of_pos hQ
  have h2 : |(2 : ℚ)| = 2 := by norm_num
  refine ⟨rfl, ?_, rfl, ?_, by norm_num [calcStopLossPrice], ?_⟩
  · simp [calcStopLossPrice, habs]
  · simp [calcTrailingActivationPrice, habs]
  · simp only [calcStopLossPrice, h2]; norm_num

/-- Witness for C7 at entry 100, quantity 2, loss limit 10. -/
theorem c7_stop_prices_witness :
    (0 : ℚ) < 2 ∧ calcStopLossPrice 100 2 TradeSide.long 10 = 95 ∧
      calcStopLossPrice 100 2 TradeSide.short 10 = 105 :=
  ⟨by norm_num, (c7_stop_prices 100 2 10 0 (by norm_num)).2.2.2.2.1,
    (c7_stop_prices 100 2 10 0 (by norm_num)).2.2.2.2.2⟩

/-- C6: with fewer than 30 klines the 30-period SMA is undefined and the
trend engine reports itself not ready; with exactly 30 klines `getSMA`
equals the arithmetic mean of the close prices. -/
theorem c6_sma_ready (values : List AsterKline) :
    (values.length < 30 → getSMA values 30 = none) ∧
    (∀ st : TrendEngineState, st.klineSnapshot.length < 30 → trendIsReady st = false) ∧
    (values.length = 30 →
      getSMA values 30 = some ((values.map (fun k => k.close)).sum / 30)) := by
  refine ⟨?_, ?_, ?_⟩
  · intro h
    simp [getSMA, h]
  · intro st h
    have hdec : decide (30 ≤ st.klineSnapshot.length) = false := by
      simp; omega
    simp [trendIsReady, hdec]
  · intro h
    have hnot : ¬ values.length < 30 := by omega
    simp only [getSMA, if_neg hnot, h, Nat.sub_self, List.drop_zero, Option.some.injEq]
    rw [List.sum_eq_foldl]
    simp [h]

/-- Witness for C6: the empty kline list is not enough, a constant list of
30 klines yields its mean. -/
theorem c6_sma_ready_witness :
    getSMA [] 30 = none ∧
    trendIsReady ⟨none, none, none, []⟩ = false ∧
    getSMA ((List.range 30).map (fun i => ⟨i, 3⟩)) 30 =
      some (((((List.range 30).map (fun i => (⟨i, 3⟩ : AsterKline))).map
        (fun k => k.close)).sum) / 30) :=
  ⟨(c6_sma_ready []).1 (by norm_num), (c6_sma_ready []).2.1 ⟨none, none, none, []⟩ (by norm_num),
    (c6_sma_ready _).2.2 (by simp)⟩

/-- A push into a log that still has room below the bound appends. -/
theorem tradeLogPush_of_room (N : ℕ) (acc : List TradeLogEntry) (e : TradeLogEntry)
    (h : acc.length + 1 ≤ N) : tradeLogPush N acc e = acc ++ [e] := by
  unfold tradeLogPush
  rw [if_neg (by simp; omega)]

/-- A push into a log already at the bound appends and drops the oldest
entry. -/
theorem tradeLogPush_of_full (N : ℕ) (acc : List TradeLogEntry) (e : TradeLogEntry)
    (h : acc.length = N) : tradeLogPush N acc e = (acc ++ [e]).drop 1 := by
  unfold tradeLogPush
  rw [if_pos (by simp [h]), List.drop_one]

/-- Folding pushes over a log below its bound keeps exactly the most
recent entries. -/
theorem tradeLog_foldl_drop (N : ℕ) :
    ∀ (pushes acc : List TradeLogEntry), acc.length ≤ N →
      pushes.foldl (tradeLogPush N) acc = (acc ++ pushes).drop (acc.length + pushes.length - N)
  | [], acc, h => by
    simp [Nat.sub_eq_zero_of_le h]
  | e :: rest, acc, h => by
    rcases lt_or_eq_of_le h with hlt | heq
    · rw [List.foldl_cons, tradeLogPush_of_room N acc e (by omega)]
      rw [tradeLog_foldl_drop N rest (acc ++ [e]) (by simp; omega)]
      have hl : (acc ++ [e]) ++ rest = acc ++ e :: rest := by simp
      rw [hl]
      congr 1
      simp
      omega
    · rw [List.foldl_cons, tradeLogPush_of_full N acc e heq]
      rw [tradeLog_foldl_drop N rest ((acc ++ [e]).drop 1) (by simp; omega)]
      rw [← List.drop_append_of_le_length (by simp : 1 ≤ (acc ++ [e]).length)]
      rw [List.drop_drop]
      have hl : (acc ++ [e]) ++ rest = acc ++ e :: rest := by simp
      rw [hl]
      congr 1
      simp [← heq]
      omega

/-- C8: for every capacity `N` and every push sequence, the stored entries
are exactly the most recent `min(pushes, N)` pushed entries in push order;
the length never exceeds `N` and the oldest entry is dropped first. -/
theorem c8_trade_log_ring (N : ℕ) (pushes : List TradeLogEntry) :
    tradeLogRun N pushes = pushes.drop (pushes.length - N) ∧
    (tradeLogRun N pushes).length = min pushes.length N := by
  have h := tradeLog_foldl_drop N pushes [] (by simp)
  have h' : tradeLogRun N pushes = pushes.drop (pushes.length - N) := by
    simpa [tradeLogRun] using h
  refine ⟨h', ?_⟩
  rw [h', List.length_drop]
  omega

/-- C10: `getPosition` never fails: a null snapshot, an absent position
list, a list without a record for the symbol, and non-numeric numeric
fields all produce the flat snapshot. -/
theorem c10_getPosition_total :
    (∀ symbol : String, getPosition none symbol = ⟨0, 0, 0⟩) ∧
    (∀ (s : AccountSnapshot) (symbol : String), s.positions = none →
      getPosition (some s) symbol = ⟨0, 0, 0⟩) ∧
    (∀ (s : AccountSnapshot) (symbol : String) (ps : List AccountPosition),
      s.positions = some ps → (∀ p ∈ ps, p.symbol ≠ symbol) →
      getPosition (some s) symbol = ⟨0, 0, 0⟩) ∧
    (∀ (symbol : String) (tu : Option ℚ) (p : AccountPosition),
      p.symbol = symbol → p.positionAmt = none → p.entryPrice = none →
      p.unrealizedProfit = none →
      getPosition (some ⟨tu, some [p]⟩) symbol = ⟨0, 0, 0⟩) := by
  refine ⟨fun _ => rfl, ?_, ?_, ?_⟩
  · intro s symbol h
    simp [getPosition, h]
  · intro s symbol ps h hall
    have hfil : ps.filter (fun p => p.symbol == symbol) = [] := by
      rw [List.filter_eq_nil_iff]
      intro p hp
      simp [hall p hp]
    simp [getPosition, h, hfil]
  · intro symbol tu p h1 h2 h3 h4
    norm_num [getPosition, numOr0, nonZeroEps, firstMaxExposure, List.filter, List.find?,
      Option.orElse, Option.getD, h1, h2, h3, h4]

/-- Witness for C10 at a null snapshot and at a single all-non-numeric
record. -/
theorem c10_getPosition_total_witness :
    getPosition none ("BTCUSDT") = ⟨0, 0, 0⟩ ∧
    getPosition (some ⟨none, some [⟨"BTCUSDT", none, none, none, PositionSide.long⟩]⟩)
      ("BTCUSDT") = ⟨0, 0, 0⟩ :=
  ⟨c10_getPosition_total.1 ("BTCUSDT"),
    c10_getPosition_total.2.2.2 ("BTCUSDT") none
      ⟨"BTCUSDT", none, none, none, PositionSide.long⟩ rfl rfl rfl rfl⟩

/-- C1 counterexample: in `TrendEngine.handlePositionManagement` a long
position with entry 100, quantity 1, last price 105 has a strictly
positive derived PnL of 5, yet an exchange-reported unrealized PnL of -11
alone triggers the market close at loss limit 10 — the claim requires no
close when the derived PnL is strictly positive. -/
theorem c1_liquidation_trigger_counterexample :
    trendShouldClose 10 ⟨1, 100, -11⟩ 105 = true ∧
    (0 : ℚ) < trendPnl ⟨1, 100, -11⟩ 105 ∧
    (⟨1, 100, -11⟩ : PositionSnapshot).unrealizedProfit < -10 := by
  refine ⟨?_, ?_, ?_⟩ <;> norm_num [trendShouldClose, trendPnl]

/-- C1 (amended): the maker engine's `checkRisk` triggers the forced close
exactly when the derived PnL drops below `-lossLimit`, or the reported
unrealized PnL drops below `-lossLimit` while the derived PnL is
non-positive; the trend engine triggers exactly when either measure drops
below `-lossLimit`, without the non-positivity guard.  The concrete long
examples (entry 100, quantity 1, loss limit 10: last price 89 closes, last
price 91 does not) hold in both engines. -/
theorem c1_liquidation_trigger :
    (∀ (lossLimit : ℚ) (position : PositionSnapshot) (bidPrice askPrice : ℚ),
      EPS ≤ |position.positionAmt| → nonZeroEps < |position.entryPrice| →
      (makerShouldClose lossLimit position bidPrice askPrice = true ↔
        (makerPnl position bidPrice askPrice < -lossLimit ∨
          (position.unrealizedProfit < -lossLimit ∧ makerPnl position bidPrice askPrice ≤ 0)))) ∧
    (∀ (lossLimit : ℚ) (position : PositionSnapshot) (price : ℚ),
      trendShouldClose lossLimit position price = true ↔
        (trendPnl position price < -lossLimit ∨ position.unrealizedProfit < -lossLimit)) ∧
    trendShouldClose 10 ⟨1, 100, -9⟩ 89 = true ∧
    trendShouldClose 10 ⟨1, 100, -9⟩ 91 = false ∧
    makerShouldClose 10 ⟨1, 100, -9⟩ 89 89 = true ∧
    makerShouldClose 10 ⟨1, 100, -9⟩ 91 91 = false := by
  refine ⟨?_, ?_, ?_, ?_, ?_, ?_⟩
  · intro lossLimit position bidPrice askPrice h1 h2
    unfold makerShouldClose
    rw [if_neg (not_lt.mpr h1), if_neg (not_not_intro h2)]
    simp
  · intro lossLimit position price
    unfold trendShouldClose
    simp
  · norm_num [trendShouldClose, trendPnl]
  · norm_num [trendShouldClose, trendPnl]
  · norm_num [makerShouldClose, makerPnl, EPS, nonZeroEps]
  · norm_num [makerShouldClose, makerPnl, EPS, nonZeroEps]

/-- Witness for C1 at the long example position. -/
theorem c1_liquidation_trigger_witness :
    EPS ≤ |(⟨1, 100, -9⟩ : PositionSnapshot).positionAmt| ∧
    nonZeroEps < |(⟨1, 100, -9⟩ : PositionSnapshot).entryPrice| ∧
    (makerShouldClose 10 ⟨1, 100, -9⟩ 89 89 = true ↔
      (makerPnl ⟨1, 100, -9⟩ 89 89 < -10 ∨
        ((⟨1, 100, -9⟩ : PositionSnapshot).unrealizedProfit < -10 ∧
          makerPnl ⟨1, 100, -9⟩ 89 89 ≤ 0))) :=
  ⟨by norm_num [EPS], by norm_num [nonZeroEps],
    c1_liquidation_trigger.1 10 ⟨1, 100, -9⟩ 89 89 (by norm_num [EPS])
      (by norm_num [nonZeroEps])⟩

/-- C2 counterexample: the stale-order sweep of
`TrendEngine.handleOpenPosition` logs every `cancelAllOrders` failure at
`"error"` severity, including one classified as unknown-order — the claim
requires such a cancellation never to produce an error-level entry. -/
theorem c2_benign_cancel_counterexample :
    trendCancelAllCatchSeverity ⟨true, "Unknown order sent."⟩ = "error" ∧
    isUnknownOrderError ⟨true, "Unknown order sent."⟩ = true ∧
    ("error" : String) ≠ "order" := by
  refine ⟨rfl, rfl, by simp⟩

/-- C2 (amended): in the maker engine's cancellation loop, an
unknown-order response clears the pending-cancel marker and appends
exactly one `"order"`-severity entry, never an `"error"` one; the trend
engine's stale-order sweep instead logs any failure, unknown-order
included, at `"error"` severity. -/
theorem c2_benign_cancel (pendingCancel : List ℕ) (logs : List String)
    (order : AsterOrder) (msg : String) (hnd : pendingCancel.Nodup) :
    order.orderId ∉ (makerCancelStep pendingCancel logs order (.err ⟨true, msg⟩)).1 ∧
    (makerCancelStep pendingCancel logs order (.err ⟨true, msg⟩)).2 = logs ++ ["order"] ∧
    "error" ∉ ((makerCancelStep pendingCancel logs order (.err ⟨true, msg⟩)).2.drop
      logs.length) := by
  have hmarked : ∀ l : List ℕ, l.Nodup → order.orderId ∉ l.erase order.orderId := by
    intro l hl h
    exact ((List.Nodup.mem_erase_iff hl).mp h).1 rfl
  refine ⟨?_, ?_, ?_⟩
  · by_cases hmem : order.orderId ∈ pendingCancel
    · simpa [makerCancelStep, isUnknownOrderError, hmem] using hmarked pendingCancel hnd
    · have hnd' : (pendingCancel ++ [order.orderId]).Nodup := by
        simp [List.nodup_append, hnd, hmem]
      simpa [makerCancelStep, isUnknownOrderError, hmem] using
        hmarked (pendingCancel ++ [order.orderId]) hnd'
  · simp [makerCancelStep, isUnknownOrderError]
  · simp [makerCancelStep, isUnknownOrderError, List.drop_left]

/-- Witness for C2 at a singleton pending-cancel set. -/
theorem c2_benign_cancel_witness :
    ([3] : List ℕ).Nodup ∧
    (⟨7, "BTCUSDT", Side.buy, "LIMIT", "NEW", some 100, none, false⟩ : AsterOrder).orderId ∉
      (makerCancelStep [3] [] ⟨7, "BTCUSDT", Side.buy, "LIMIT", "NEW", some 100, none, false⟩
        (.err ⟨true, "Unknown order sent."⟩)).1 ∧
    (makerCancelStep [3] [] ⟨7, "BTCUSDT", Side.buy, "LIMIT", "NEW", some 100, none, false⟩
      (.err ⟨true, "Unknown order sent."⟩)).2 = [] ++ ["order"] :=
  ⟨by simp,
    (c2_benign_cancel [3] [] ⟨7, "BTCUSDT", Side.buy, "LIMIT", "NEW", some 100, none, false⟩
      ("Unknown order sent.") (by simp)).1,
    (c2_benign_cancel [3] [] ⟨7, "BTCUSDT", Side.buy, "LIMIT", "NEW", some 100, none, false⟩
      ("Unknown order sent.") (by simp)).2.1⟩

/-- C3 counterexample: a push reporting the pending identifier with status
`"PARTIALLY_FILLED"` — an open, non-terminal state that is neither filled
nor canceled nor rejected — releases the trend engine's slot lock, while
the maker engine keeps it. -/
theorem c3_lock_release_counterexample :
    trendSyncSlot [⟨77, "BTCUSDT", Side.sell, "LIMIT", "PARTIALLY_FILLED", some 100, none, false⟩]
      ⟨true, some 77, true⟩ = ⟨false, none, false⟩ ∧
    (⟨77, "BTCUSDT", Side.sell, "LIMIT", "PARTIALLY_FILLED", some 100, none,
      false⟩ : AsterOrder).status ≠ "FILLED" ∧
    (⟨77, "BTCUSDT", Side.sell, "LIMIT", "PARTIALLY_FILLED", some 100, none,
      false⟩ : AsterOrder).status ≠ "CANCELED" ∧
    (⟨77, "BTCUSDT", Side.sell, "LIMIT", "PARTIALLY_FILLED", some 100, none,
      false⟩ : AsterOrder).status ≠ "REJECTED" ∧
    makerSyncSlot [⟨77, "BTCUSDT", Side.sell, "LIMIT", "PARTIALLY_FILLED", some 100, none, false⟩]
      ⟨true, some 77, true⟩ = ⟨true, some 77, true⟩ := by
  refine ⟨?_, by simp, by simp, by simp, ?_⟩
  · simp [trendSyncSlot, unlockOperating, List.find?]
  · simp [makerSyncSlot, List.find?]

/-- C3 (amended): on each order-stream push the maker engine keeps a
pending slot lock exactly while the push reports the pending identifier
with an empty, `"NEW"` or `"PARTIALLY_FILLED"` status, releasing it
otherwise or when the identifier is absent; the trend engine keeps the
lock only for an empty or `"NEW"` status, so a `"PARTIALLY_FILLED"` report
releases its lock although the order is still open. -/
theorem c3_lock_release :
    (∀ (orders : List AsterOrder) (st : SlotState) (pid : ℕ), st.pendingId = some pid →
      (makerSyncSlot orders st = st ↔
        ∃ o, orders.find? (fun o => o.orderId == pid) = some o ∧
          (o.status = "" ∨ o.status = "NEW" ∨ o.status = "PARTIALLY_FILLED"))) ∧
    (∀ (orders : List AsterOrder) (st : SlotState) (pid : ℕ), st.pendingId = some pid →
      (trendSyncSlot orders st = st ↔
        ∃ o, orders.find? (fun o => o.orderId == pid) = some o ∧
          (o.status = "" ∨ o.status = "NEW"))) := by
  have hne : ∀ (st : SlotState) (pid : ℕ), st.pendingId = some pid →
      unlockOperating st ≠ st := by
    intro st pid h heq
    rw [← heq] at h
    simp [unlockOperating] at h
  constructor
  · intro orders st pid h
    unfold makerSyncSlot
    cases hf : orders.find? (fun o => o.orderId == pid) with
    | none =>
      simp only [h, hf]
      constructor
      · intro heq
        exact absurd heq (hne st pid h)
      · rintro ⟨o, ho, -⟩
        simp at ho
    | some o =>
      simp only [h, hf]
      by_cases hc : o.status ≠ "" ∧ o.status ≠ "NEW" ∧ o.status ≠ "PARTIALLY_FILLED"
      · rw [if_pos hc]
        constructor
        · intro heq
          exact absurd heq (hne st pid h)
        · rintro ⟨o', ho', hst⟩
          injection ho' with ho'
          subst ho'
          rcases hst with hst | hst | hst
          · exact absurd hst hc.1
          · exact absurd hst hc.2.1
          · exact absurd hst hc.2.2
      · rw [if_neg hc]
        push_neg at hc
        constructor
        · intro _
          refine ⟨o, rfl, ?_⟩
          by_cases h1 : o.status = ""
          · exact Or.inl h1
          · by_cases h2 : o.status = "NEW"
            · exact Or.inr (Or.inl h2)
            · exact Or.inr (Or.inr (hc h1 h2))
        · intro _
          rfl
  · intro orders st pid h
    unfold trendSyncSlot
    cases hf : orders.find? (fun o => o.orderId == pid) with
    | none =>
      simp only [h, hf]
      constructor
      · intro heq
        exact absurd heq (hne st pid h)
      · rintro ⟨o, ho, -⟩
        simp at ho
    | some o =>
      simp only [h, hf]
      by_cases hc : o.status ≠ "" ∧ o.status ≠ "NEW"
      · rw [if_pos hc]
        constructor
        · intro heq
          exact absurd heq (hne st pid h)
        · rintro ⟨o', ho', hst⟩
          injection ho' with ho'
          subst ho'
          rcases hst with hst | hst
          · exact absurd hst hc.1
          · exact absurd hst hc.2
      · rw [if_neg hc]
        push_neg at hc
        constructor
        · intro _
          refine ⟨o, rfl, ?_⟩
          by_cases h1 : o.status = ""
          · exact Or.inl h1
          · exact Or.inr (hc h1)
        · intro _
          rfl

/-- C5 counterexample: a snapshot holding a `BOTH`-side record with zero
position amount next to a `LONG` residue of size 5 makes `getPosition`
return the residue record, not the `BOTH` record — the claim requires the
`BOTH` record whenever one is present. -/
theorem c5_selection_counterexample :
    getPosition (some ⟨some 0, some [⟨"BTCUSDT", some 0, some 100, some 0, PositionSide.both⟩,
        ⟨"BTCUSDT", some 5, some 101, some (-2), PositionSide.long⟩]⟩) ("BTCUSDT") =
      ⟨5, 101, -2⟩ ∧
    (⟨"BTCUSDT", some 0, some 100, some 0, PositionSide.both⟩ : AccountPosition).positionSide =
      PositionSide.both ∧
    (⟨5, 101, -2⟩ : PositionSnapshot) ≠
      ⟨numOr0 (some 0), numOr0 (some 100), numOr0 (some 0)⟩ := by
  refine ⟨?_, rfl, ?_⟩
  · norm_num [getPosition, numOr0, nonZeroEps, firstMaxExposure, List.filter, List.find?,
      Option.orElse, Option.getD,
      show PositionSide.long ≠ PositionSide.both from fun h => by cases h]
  · intro h
    rw [PositionSnapshot.mk.injEq] at h
    norm_num [numOr0] at h

/-- C5 (amended): among the records for the symbol, `getPosition` selects
the first `BOTH`-side record carrying exposure above `1e-8` if one exists,
else the first record attaining the largest exposure among those above
`1e-8`, else the first record for the symbol; a `BOTH` record with zero
(or unparseable) amount is skipped. -/
theorem c5_selection :
    (∀ (s : AccountSnapshot) (symbol : String) (p0 : AccountPosition)
        (rest : List AccountPosition) (b : AccountPosition),
      (s.positions.getD []).filter (fun p => p.symbol == symbol) = p0 :: rest →
      ((p0 :: rest).filter (fun p => nonZeroEps < |numOr0 p.positionAmt|)).find?
        (fun p => p.positionSide == PositionSide.both) = some b →
      getPosition (some s) symbol =
        ⟨numOr0 b.positionAmt, numOr0 b.entryPrice, numOr0 b.unrealizedProfit⟩) ∧
    (∀ (s : AccountSnapshot) (symbol : String) (p0 : AccountPosition)
        (rest : List AccountPosition) (m : AccountPosition),
      (s.positions.getD []).filter (fun p => p.symbol == symbol) = p0 :: rest →
      ((p0 :: rest).filter (fun p => nonZeroEps < |numOr0 p.positionAmt|)).find?
        (fun p => p.positionSide == PositionSide.both) = none →
      firstMaxExposure ((p0 :: rest).filter (fun p => nonZeroEps < |numOr0 p.positionAmt|)) =
        some m →
      getPosition (some s) symbol =
        ⟨numOr0 m.positionAmt, numOr0 m.entryPrice, numOr0 m.unrealizedProfit⟩) ∧
    (∀ (s : AccountSnapshot) (symbol : String) (p0 : AccountPosition)
        (rest : List AccountPosition),
      (s.positions.getD []).filter (fun p => p.symbol == symbol) = p0 :: rest →
      (p0 :: rest).filter (fun p => nonZeroEps < |numOr0 p.positionAmt|) = [] →
      getPosition (some s) symbol =
        ⟨numOr0 p0.positionAmt, numOr0 p0.entryPrice, numOr0 p0.unrealizedProfit⟩) ∧
    getPosition (some ⟨some 0, some [⟨"BTCUSDT", some 2, some 100, some 1, PositionSide.both⟩,
        ⟨"BTCUSDT", some 5, some 101, some (-2), PositionSide.long⟩]⟩) ("BTCUSDT") =
      ⟨2, 100, 1⟩ := by
  refine ⟨?_, ?_, ?_, ?_⟩
  · intro s symbol p0 rest b hfil hfind
    unfold Option.getD at hfil
    unfold getPosition
    simp only [hfil, hfind, Option.orElse, Option.getD]
  · intro s symbol p0 rest m hfil hfind hmax
    unfold Option.getD at hfil
    unfold getPosition
    simp only [hfil, hfind, hmax, Option.orElse, Option.getD]
  · intro s symbol p0 rest hfil hwe
    unfold Option.getD at hfil
    unfold getPosition
    simp only [hfil, hwe, List.find?, firstMaxExposure, List.foldl, Option.orElse, Option.getD]
  · norm_num [getPosition, numOr0, nonZeroEps, firstMaxExposure, List.filter, List.find?,
      Option.orElse, Option.getD]

/-- Witness for C5 at a snapshot with an exposed `BOTH` record and a
larger stale residue. -/
theorem c5_selection_witness :
    ((⟨some 0, some [⟨"BTCUSDT", some 2, some 100, some 1, PositionSide.both⟩,
        ⟨"BTCUSDT", some 5, some 101, some (-2),
          PositionSide.long⟩]⟩ : AccountSnapshot).positions.getD []).filter
        (fun p => p.symbol == "BTCUSDT") =
      [⟨"BTCUSDT", some 2, some 100, some 1, PositionSide.both⟩,
        ⟨"BTCUSDT", some 5, some 101, some (-2), PositionSide.long⟩] ∧
    getPosition (some ⟨some 0, some [⟨"BTCUSDT", some 2, some 100, some 1, PositionSide.both⟩,
        ⟨"BTCUSDT", some 5, some 101, some (-2), PositionSide.long⟩]⟩) ("BTCUSDT") =
      ⟨numOr0 (some 2), numOr0 (some 100), numOr0 (some 1)⟩ := by
  constructor
  · simp [List.filter]
  · exact c5_selection.1
      ⟨some 0, some [⟨"BTCUSDT", some 2, some 100, some 1, PositionSide.both⟩,
        ⟨"BTCUSDT", some 5, some 101, some (-2), PositionSide.long⟩]⟩ ("BTCUSDT")
      ⟨"BTCUSDT", some 2, some 100, some 1, PositionSide.both⟩
      [⟨"BTCUSDT", some 5, some 101, some (-2), PositionSide.long⟩]
      ⟨"BTCUSDT", some 2, some 100, some 1, PositionSide.both⟩
      (by simp [List.filter])
      (by norm_num [List.filter, List.find?, nonZeroEps, numOr0])

/-- C9 counterexample: with handler 0 registered alone and subscribing
handler 1 when invoked, the live iteration of `emitUpdate` invokes both
handlers in the same emission, whereas a snapshot copy of the registry
would invoke only handler 0 — mutation during emission does change the
invoked set. -/
theorem c9_emission_counterexample :
    emitLive (fun n => if n = 0 then [RegOp.add 1] else []) 2 [] [0] = [0, 1] ∧
    emitSnapshotCopy [0] = [0] ∧
    emitLive (fun n => if n = 0 then [RegOp.add 1] else []) 2 [] [0] ≠
      emitSnapshotCopy [0] := by
  refine ⟨?_, rfl, ?_⟩
  · simp [emitLive, applyRegOps, applyRegOp, List.filter]
  · simp [emitLive, emitSnapshotCopy, applyRegOps, applyRegOp, List.filter]

/-- Visiting the head of the unvisited remainder shrinks the remainder by
exactly that element. -/
theorem emit_filter_step (l visited : List ℕ) (x : ℕ) (t : List ℕ) (hnd : l.Nodup)
    (hF : l.filter (fun y => decide (y ∉ visited)) = x :: t) :
    l.filter (fun y => decide (y ∉ visited ++ [x])) = t := by
  have hpred : ∀ y : ℕ, (decide (y ∉ visited ++ [x])) =
      (decide (y ∉ visited) && decide (y ≠ x)) := by
    intro y
    by_cases h1 : y ∈ visited <;> by_cases h2 : y = x <;> simp [h1, h2, List.mem_append]
  have hsplit : l.filter (fun y => decide (y ∉ visited ++ [x])) =
      (l.filter (fun y => decide (y ∉ visited))).filter (fun y => decide (y ≠ x)) := by
    rw [List.filter_filter]
    exact List.filter_congr (fun y _ => by rw [hpred y, Bool.and_comm])
  have hnodup : (x :: t).Nodup := hF ▸ hnd.filter _
  have hxt : x ∉ t := by
    rw [List.nodup_cons] at hnodup
    exact hnodup.1
  rw [hsplit, hF, List.filter_cons, if_neg (by simp)]
  have hself : ∀ y ∈ t, decide (y ≠ x) = true := by
    intro y hy
    simp only [ne_eq, decide_eq_true_eq]
    intro hyx
    exact hxt (hyx ▸ hy)
  exact List.filter_eq_self.mpr hself

/-- A live emission whose handlers perform no registry mutation invokes
exactly the not-yet-visited registered handlers, in order. -/
theorem emitLive_no_mutation (env : ℕ → List RegOp) (henv : ∀ h, env h = []) :
    ∀ (fuel : ℕ) (visited l : List ℕ), l.Nodup →
      (l.filter (fun y => decide (y ∉ visited))).length ≤ fuel →
      emitLive env fuel visited l = l.filter (fun y => decide (y ∉ visited))
  | 0, visited, l, _, hlen => by
    have h0 : l.filter (fun y => decide (y ∉ visited)) = [] :=
      List.length_eq_zero.mp (Nat.le_zero.mp hlen)
    rw [h0]
    rfl
  | fuel + 1, visited, l, hnd, hlen => by
    cases hF : l.filter (fun y => decide (y ∉ visited)) with
    | nil =>
      rw [emitLive, hF]
      rfl
    | cons x t =>
      have hstep := emit_filter_step l visited x t hnd hF
      have hlen' : (l.filter (fun y => decide (y ∉ visited ++ [x]))).length ≤ fuel := by
        rw [hstep]
        have hl := hlen
        rw [hF] at hl
        simpa using hl
      have hrec := emitLive_no_mutation env henv fuel (visited ++ [x]) l hnd hlen'
      rw [emitLive, hF]
      show x :: emitLive env fuel (visited ++ [x]) (applyRegOps l (env x)) = x :: t
      rw [henv x]
      have happ : applyRegOps l [] = l := rfl
      rw [happ, hrec, hstep]

/-- C9 (amended): `emitUpdate` iterates the live handler set, not a
snapshot copy: a handler registered during the emission is invoked in that
same emission, while an emission whose handlers leave the registry alone
invokes exactly the handlers registered when it started. -/
theorem c9_emission :
    (∀ (env : ℕ → List RegOp) (l : List ℕ) (fuel : ℕ), (∀ h, env h = []) → l.Nodup →
      l.length ≤ fuel → emitLive env fuel [] l = emitSnapshotCopy l) ∧
    emitLive (fun n => if n = 0 then [RegOp.add 1] else []) 2 [] [0] = [0, 1] := by
  constructor
  · intro env l fuel henv hnd hlen
    have h := emitLive_no_mutation env henv fuel [] l hnd (by simpa using hlen)
    simpa [emitSnapshotCopy] using h
  · simp [emitLive, applyRegOps, applyRegOp, List.filter]

/-- Witness for C9 with three mutation-free handlers. -/
theorem c9_emission_witness :
    (∀ h : ℕ, (fun _ : ℕ => ([] : List RegOp)) h = []) ∧
    ([0, 1, 2] : List ℕ).Nodup ∧
    emitLive (fun _ : ℕ => ([] : List RegOp)) 3 [] [0, 1, 2] = emitSnapshotCopy [0, 1, 2] :=
  ⟨fun _ => rfl, by simp,
    c9_emission.1 (fun _ => []) [0, 1, 2] 3 (fun _ => rfl) (by simp) (by simp)⟩

/-- Witness for C3 at a slot pending on an order reported `"NEW"`. -/
theorem c3_lock_release_witness :
    (⟨true, some 5, true⟩ : SlotState).pendingId = some 5 ∧
    (makerSyncSlot [⟨5, "BTCUSDT", Side.buy, "LIMIT", "NEW", some 100, none, false⟩]
        ⟨true, some 5, true⟩ = ⟨true, some 5, true⟩ ↔
      ∃ o, ([⟨5, "BTCUSDT", Side.buy, "LIMIT", "NEW", some 100, none,
          false⟩] : List AsterOrder).find? (fun o => o.orderId == 5) = some o ∧
        (o.status = "" ∨ o.status = "NEW" ∨ o.status = "PARTIALLY_FILLED")) :=
  ⟨rfl, c3_lock_release.1 [⟨5, "BTCUSDT", Side.buy, "LIMIT", "NEW", some 100, none, false⟩]
    ⟨true, some 5, true⟩ 5 rfl⟩

/-- A successful `findIndex` hit names an available, matching entry. -/
theorem findAvail_some_mem (p : DesiredOrder → Bool) :
    ∀ (l : List (DesiredOrder × Bool)) (i : ℕ), findAvail p l = some i →
      ∃ tu ∈ l, tu.2 = true ∧ p tu.1 = true
  | [], i, h => by simp [findAvail] at h
  | tu :: rest, i, h => by
    by_cases hc : (tu.2 && p tu.1) = true
    · rw [Bool.and_eq_true] at hc
      exact ⟨tu, by simp, hc.1, hc.2⟩
    · rw [findAvail, if_neg hc] at h
      rcases Option.map_eq_some'.mp h with ⟨j, hj, -⟩
      rcases findAvail_some_mem p rest j hj with ⟨tu', htu', h1, h2⟩
      exact ⟨tu', by simp [htu'], h1, h2⟩

/-- `findIndex` misses when no entry satisfies the predicate. -/
theorem findAvail_none_of_not (p : DesiredOrder → Bool) :
    ∀ (l : List (DesiredOrder × Bool)), (∀ tu ∈ l, p tu.1 = false) → findAvail p l = none
  | [], _ => rfl
  | tu :: rest, h => by
    have h1 : p tu.1 = false := h tu (by simp)
    rw [findAvail, if_neg (by simp [h1])]
    rw [findAvail_none_of_not p rest (fun tu' h' => h tu' (by simp [h']))]
    rfl

/-- Every cancellation emitted by the matching pass concerns an order with
an unparseable price or one that is not pending-cancel. -/
theorem syncScan_cancel_not_pending (tol : ℚ) (pc : List ℕ) (targets : List DesiredOrder) :
    ∀ (opens : List AsterOrder) (un : List Bool) (o : AsterOrder),
      o ∈ (syncScan tol pc targets opens un).2 → o.price ≠ none → o.orderId ∉ pc
  | [], un, o, h, _ => by
    rw [syncScan] at h
    simp at h
  | order :: rest, un, o, h, hp => by
    cases hpr : order.price with
    | none =>
      have hEq : (syncScan tol pc targets (order :: rest) un).2 =
          order :: (syncScan tol pc targets rest un).2 := by
        simp only [syncScan, hpr]
      rw [hEq] at h
      rcases List.mem_cons.mp h with h | h
      · exact absurd (by rw [h]; exact hpr) hp
      · exact syncScan_cancel_not_pending tol pc targets rest un o h hp
    | some price =>
      by_cases hpc : order.orderId ∈ pc
      · have hEq : syncScan tol pc targets (order :: rest) un =
            syncScan tol pc targets rest un := by
          simp only [syncScan, hpr]
          rw [if_pos hpc]
        rw [hEq] at h
        exact syncScan_cancel_not_pending tol pc targets rest un o h hp
      · cases hm : findMatchIdx tol targets un order.side order.reduceOnly price with
        | some i =>
          have hEq : syncScan tol pc targets (order :: rest) un =
              syncScan tol pc targets rest (un.set i false) := by
            simp only [syncScan, hpr]
            rw [if_neg hpc, hm]
          rw [hEq] at h
          exact syncScan_cancel_not_pending tol pc targets rest (un.set i false) o h hp
        | none =>
          have hEq : (syncScan tol pc targets (order :: rest) un).2 =
              order :: (syncScan tol pc targets rest un).2 := by
            simp only [syncScan, hpr]
            rw [if_neg hpc, hm]
          rw [hEq] at h
          rcases List.mem_cons.mp h with h | h
          · rw [h]
            exact hpc
          · exact syncScan_cancel_not_pending tol pc targets rest un o h hp

/-- A priced, non-pending resident order that the matching pass does not
cancel agrees with some desired order. -/
theorem syncScan_kept_agrees (tol : ℚ) (pc : List ℕ) (targets : List DesiredOrder) :
    ∀ (opens : List AsterOrder) (un : List Bool) (o : AsterOrder) (price : ℚ),
      o ∈ opens → o.price = some price → o.orderId ∉ pc →
      o ∉ (syncScan tol pc targets opens un).2 →
      ∃ t ∈ targets, matchesTarget tol o.side o.reduceOnly price t = true
  | [], un, o, price, hmem, _, _, _ => by simp at hmem
  | order :: rest, un, o, price, hmem, hp, hpc, hnc => by
    cases hpr : order.price with
    | none =>
      have hEq : (syncScan tol pc targets (order :: rest) un).2 =
          order :: (syncScan tol pc targets rest un).2 := by
        simp only [syncScan, hpr]
      rw [hEq] at hnc
      rcases List.mem_cons.mp hmem with h | h
      · exact absurd (h ▸ List.mem_cons_self order (syncScan tol pc targets rest un).2) hnc
      · refine syncScan_kept_agrees tol pc targets rest un o price h hp hpc (fun hin => ?_)
        exact hnc (List.mem_cons_of_mem order hin)
    | some price' =>
      by_cases hpcO : order.orderId ∈ pc
      · have hEq : syncScan tol pc targets (order :: rest) un =
            syncScan tol pc targets rest un := by
          simp only [syncScan, hpr]
          rw [if_pos hpcO]
        rw [hEq] at hnc
        rcases List.mem_cons.mp hmem with h | h
        · exact absurd (by rw [h]; exact hpcO) hpc
        · exact syncScan_kept_agrees tol pc targets rest un o price h hp hpc hnc
      · cases hm : findMatchIdx tol targets un order.side order.reduceOnly price' with
        | some i =>
          have hEq : syncScan tol pc targets (order :: rest) un =
              syncScan tol pc targets rest (un.set i false) := by
            simp only [syncScan, hpr]
            rw [if_neg hpcO, hm]
          rw [hEq] at hnc
          rcases List.mem_cons.mp hmem with h | h
          · rcases findAvail_some_mem _ (targets.zip un) i hm with ⟨tu, htu, -, hmatch⟩
            refine ⟨tu.1, (List.of_mem_zip htu).1, ?_⟩
            have hp' := hp
            rw [h] at hp'
            rw [hp'] at hpr
            injection hpr with hpp
            rw [h, hpp]
            exact hmatch
          · exact syncScan_kept_agrees tol pc targets rest (un.set i false) o price h hp hpc hnc
        | none =>
          have hEq : (syncScan tol pc targets (order :: rest) un).2 =
              order :: (syncScan tol pc targets rest un).2 := by
            simp only [syncScan, hpr]
            rw [if_neg hpcO, hm]
          rw [hEq] at hnc
          rcases List.mem_cons.mp hmem with h | h
          · exact absurd (h ▸ List.mem_cons_self order (syncScan tol pc targets rest un).2) hnc
          · refine syncScan_kept_agrees tol pc targets rest un o price h hp hpc (fun hin => ?_)
            exact hnc (List.mem_cons_of_mem order hin)

/-- A priced, non-pending resident order that agrees with no desired order
at all is cancelled by the matching pass. -/
theorem syncScan_unmatched_cancelled (tol : ℚ) (pc : List ℕ) (targets : List DesiredOrder) :
    ∀ (opens : List AsterOrder) (un : List Bool) (o : AsterOrder) (price : ℚ),
      o ∈ opens → o.price = some price → o.orderId ∉ pc →
      (∀ t ∈ targets, matchesTarget tol o.side o.reduceOnly price t = false) →
      o ∈ (syncScan tol pc targets opens un).2
  | [], un, o, price, hmem, _, _, _ => by simp at hmem
  | order :: rest, un, o, price, hmem, hp, hpc, hall => by
    cases hpr : order.price with
    | none =>
      have hEq : (syncScan tol pc targets (order :: rest) un).2 =
          order :: (syncScan tol pc targets rest un).2 := by
        simp only [syncScan, hpr]
      rw [hEq]
      rcases List.mem_cons.mp hmem with h | h
      · rw [h] at hp
        rw [hp] at hpr
        exact absurd hpr (by simp)
      · exact List.mem_cons_of_mem order
          (syncScan_unmatched_cancelled tol pc targets rest un o price h hp hpc hall)
    | some price' =>
      by_cases hpcO : order.orderId ∈ pc
      · have hEq : syncScan tol pc targets (order :: rest) un =
            syncScan tol pc targets rest un := by
          simp only [syncScan, hpr]
          rw [if_pos hpcO]
        rw [hEq]
        rcases List.mem_cons.mp hmem with h | h
        · exact absurd (by rw [h]; exact hpcO) hpc
        · exact syncScan_unmatched_cancelled tol pc targets rest un o price h hp hpc hall
      · rcases List.mem_cons.mp hmem with h | h
        · have hp2 := hp
          rw [h, hpr] at hp2
          injection hp2 with hpp2
          have hpp : price = price' := hpp2.symm
          have hnone : findMatchIdx tol targets un order.side order.reduceOnly price' = none := by
            apply findAvail_none_of_not
            intro tu htu
            have hf := hall tu.1 ((List.of_mem_zip htu).1)
            rw [h, hpp] at hf
            exact hf
          have hEq : (syncScan tol pc targets (order :: rest) un).2 =
              order :: (syncScan tol pc targets rest un).2 := by
            simp only [syncScan, hpr]
            rw [if_neg hpcO, hnone]
          rw [hEq, h]
          exact List.mem_cons_self order _
        · cases hm : findMatchIdx tol targets un order.side order.reduceOnly price' with
          | some i =>
            have hEq : syncScan tol pc targets (order :: rest) un =
                syncScan tol pc targets rest (un.set i false) := by
              simp only [syncScan, hpr]
              rw [if_neg hpcO, hm]
            rw [hEq]
            exact syncScan_unmatched_cancelled tol pc targets rest (un.set i false) o price
              h hp hpc hall
          | none =>
            have hEq : (syncScan tol pc targets (order :: rest) un).2 =
                order :: (syncScan tol pc targets rest un).2 := by
              simp only [syncScan, hpr]
              rw [if_neg hpcO, hm]
            rw [hEq]
            exact List.mem_cons_of_mem order
              (syncScan_unmatched_cancelled tol pc targets rest un o price h hp hpc hall)

/-- Placed orders come from the desired set and carry a tradable amount. -/
theorem syncPlacements_sub (targets : List DesiredOrder) (un : List Bool) (t : DesiredOrder) :
    t ∈ syncPlacements targets un → t ∈ targets ∧ EPS ≤ t.amount := by
  intro h
  unfold syncPlacements at h
  rcases List.mem_map.mp h with ⟨tu, htu, rfl⟩
  rcases List.mem_filter.mp htu with ⟨hzip, hcond⟩
  rw [Bool.and_eq_true] at hcond
  obtain ⟨t1, flag⟩ := tu
  exact ⟨(List.of_mem_zip hzip).1, of_decide_eq_true hcond.2⟩

/-- A desired order left available with a tradable amount is placed. -/
theorem syncPlacements_of_get :
    ∀ (targets : List DesiredOrder) (un : List Bool) (i : ℕ) (t : DesiredOrder),
      targets.get? i = some t → un.get? i = some true → EPS ≤ t.amount →
      t ∈ syncPlacements targets un
  | [], _, i, t, hg, _, _ => by simp at hg
  | t0 :: ts, un, i, t, hg, hu, ha => by
    cases un with
    | nil => simp at hu
    | cons b bs =>
      cases i with
      | zero =>
        have hg' : t0 = t := by simpa using hg
        have hu' : b = true := by simpa using hu
        unfold syncPlacements
        rw [List.zip_cons_cons, List.filter_cons, if_pos (by simp [hu', hg', ha])]
        simp [hg']
      | succ j =>
        have hrec := syncPlacements_of_get ts bs j t (by simpa using hg) (by simpa using hu) ha
        unfold syncPlacements at hrec ⊢
        rw [List.zip_cons_cons, List.filter_cons]
        by_cases hc : (b && decide (EPS ≤ t0.amount)) = true
        · rw [if_pos hc]
          simp only [List.map_cons]
          exact List.mem_cons_of_mem _ hrec
        · rw [if_neg hc]
          exact hrec

/-- C4 counterexample: two identical resident BUY orders against a single
agreeing desired BUY order — the first resident consumes the desired
order, so the second resident agrees with a desired order on side,
reduce-only flag and price yet is cancelled, contradicting the claim's
"matched exactly when they agree". -/
theorem c4_reconciliation_counterexample :
    (syncOrdersPlan (3/10) [] [⟨Side.buy, 100, 1, false⟩]
      [⟨1, "BTCUSDT", Side.buy, "LIMIT", "NEW", some 100, none, false⟩,
       ⟨2, "BTCUSDT", Side.buy, "LIMIT", "NEW", some 100, none, false⟩]).1 =
      [⟨2, "BTCUSDT", Side.buy, "LIMIT", "NEW", some 100, none, false⟩] ∧
    matchesTarget (3/10) Side.buy false 100 ⟨Side.buy, 100, 1, false⟩ = true := by
  constructor
  · norm_num [syncOrdersPlan, syncScan, findMatchIdx, findAvail, matchesTarget, syncPlacements,
      EPS, List.zip, List.zipWith, List.filter, abs, List.set]
  · norm_num [matchesTarget, abs]

/-- C4 (amended): `syncOrders` matches residents greedily in iteration
order against not-yet-consumed desired orders agreeing on side,
reduce-only flag and price within the chase tolerance.  A priced resident
order kept by the pass agrees with some desired order, one agreeing with
no desired order at all is cancelled unless already pending-cancel,
pending-cancel residents with parseable prices are never cancelled,
every placed order is an unmatched desired order with amount at least
`1e-5`, and every such desired order is placed.  The claim's two examples
hold: residents `BUY@100, SELL@101` against `BUY@100.2, SELL@101.3` at
tolerance `0.3` are left alone, and a `0.5` gap cancels and replaces both. -/
theorem c4_reconciliation :
    (syncOrdersPlan (3/10) [] [⟨Side.buy, 100.2, 1, false⟩, ⟨Side.sell, 101.3, 1, false⟩]
      [⟨1, "BTCUSDT", Side.buy, "LIMIT", "NEW", some 100, none, false⟩,
       ⟨2, "BTCUSDT", Side.sell, "LIMIT", "NEW", some 101, none, false⟩] = ([], [])) ∧
    (syncOrdersPlan (3/10) [] [⟨Side.buy, 100.5, 1, false⟩, ⟨Side.sell, 101.5, 1, false⟩]
      [⟨1, "BTCUSDT", Side.buy, "LIMIT", "NEW", some 100, none, false⟩,
       ⟨2, "BTCUSDT", Side.sell, "LIMIT", "NEW", some 101, none, false⟩] =
      ([⟨1, "BTCUSDT", Side.buy, "LIMIT", "NEW", some 100, none, false⟩,
        ⟨2, "BTCUSDT", Side.sell, "LIMIT", "NEW", some 101, none, false⟩],
       [⟨Side.buy, 100.5, 1, false⟩, ⟨Side.sell, 101.5, 1, false⟩])) ∧
    (∀ (tol : ℚ) (pc : List ℕ) (targets : List DesiredOrder) (opens : List AsterOrder)
        (o : AsterOrder),
      o ∈ (syncOrdersPlan tol pc targets opens).1 → o.price ≠ none → o.orderId ∉ pc) ∧
    (∀ (tol : ℚ) (pc : List ℕ) (targets : List DesiredOrder) (opens : List AsterOrder)
        (o : AsterOrder) (price : ℚ),
      o ∈ opens → o.price = some price → o.orderId ∉ pc →
      o ∉ (syncOrdersPlan tol pc targets opens).1 →
      ∃ t ∈ targets, matchesTarget tol o.side o.reduceOnly price t = true) ∧
    (∀ (tol : ℚ) (pc : List ℕ) (targets : List DesiredOrder) (opens : List AsterOrder)
        (o : AsterOrder) (price : ℚ),
      o ∈ opens → o.price = some price → o.orderId ∉ pc →
      (∀ t ∈ targets, matchesTarget tol o.side o.reduceOnly price t = false) →
      o ∈ (syncOrdersPlan tol pc targets opens).1) ∧
    (∀ (tol : ℚ) (pc : List ℕ) (targets : List DesiredOrder) (opens : List AsterOrder)
        (t : DesiredOrder),
      t ∈ (syncOrdersPlan tol pc targets opens).2 → t ∈ targets ∧ EPS ≤ t.amount) ∧
    (∀ (tol : ℚ) (pc : List ℕ) (targets : List DesiredOrder) (opens : List AsterOrder)
        (i : ℕ) (t : DesiredOrder),
      targets.get? i = some t →
      (syncScan tol pc targets opens (targets.map (fun _ => true))).1.get? i = some true →
      EPS ≤ t.amount → t ∈ (syncOrdersPlan tol pc targets opens).2) := by
  refine ⟨?_, ?_, ?_, ?_, ?_, ?_, ?_⟩
  · norm_num [syncOrdersPlan, syncScan, findMatchIdx, findAvail, matchesTarget, syncPlacements,
      EPS, List.zip, List.zipWith, List.filter, abs, List.set]
  · norm_num [syncOrdersPlan, syncScan, findMatchIdx, findAvail, matchesTarget, syncPlacements,
      EPS, List.zip, List.zipWith, List.filter, abs, List.set]
  · intro tol pc targets opens o h hp
    exact syncScan_cancel_not_pending tol pc targets opens (targets.map (fun _ => true)) o h hp
  · intro tol pc targets opens o price hmem hp hpc hnc
    exact syncScan_kept_agrees tol pc targets opens (targets.map (fun _ => true)) o price
      hmem hp hpc hnc
  · intro tol pc targets opens o price hmem hp hpc hall
    exact syncScan_unmatched_cancelled tol pc targets opens (targets.map (fun _ => true)) o price
      hmem hp hpc hall
  · intro tol pc targets opens t h
    exact syncPlacements_sub targets _ t h
  · intro tol pc targets opens i t hg hu ha
    exact syncPlacements_of_get targets _ i t hg hu ha

/-- Witness for C4: a lone priced resident order agreeing with no desired
order (the desired set is empty) is cancelled. -/
theorem c4_reconciliation_witness :
    (⟨9, "BTCUSDT", Side.buy, "LIMIT", "NEW", some 100, none, false⟩ : AsterOrder) ∈
      ([⟨9, "BTCUSDT", Side.buy, "LIMIT", "NEW", some 100, none, false⟩] : List AsterOrder) ∧
    (⟨9, "BTCUSDT", Side.buy, "LIMIT", "NEW", some 100, none,
      false⟩ : AsterOrder).price = some 100 ∧
    (⟨9, "BTCUSDT", Side.buy, "LIMIT", "NEW", some 100, none, false⟩ : AsterOrder) ∈
      (syncOrdersPlan (3/10) [] []
        [⟨9, "BTCUSDT", Side.buy, "LIMIT", "NEW", some 100, none, false⟩]).1 :=
  ⟨List.mem_cons_self _ _, rfl,
    c4_reconciliation.2.2.2.2.1 (3/10) [] []
      [⟨9, "BTCUSDT", Side.buy, "LIMIT", "NEW", some 100, none, false⟩]
      ⟨9, "BTCUSDT", Side.buy, "LIMIT", "NEW", some 100, none, false⟩ 100
      (List.mem_cons_self _ _) rfl (by simp) (by intro t ht; simp at ht)⟩

end Ritmex
